import Mathlib

/-!
Shallow embedding of the school attendance tracker (Express + Supabase).

Source files embedded here:
- server/routes/attendance.js : chart aggregation, single and bulk attendance
  writes, filtered attendance listing, class-and-date view
- the classes router : class validation schema and class deletion
- the students router : student validation schema
- src/components/Dashboard : the attendance-rate computation
- supabase migration : table shapes, the UNIQUE(student_id, date) constraint
  and the primary-key uniqueness invariants used as hypotheses

The external relational store (Supabase/PostgREST) is modelled as explicit
lists of rows inside a `DB` value; query-builder calls (eq, in, gte, lte,
order, range, upsert with onConflict) are modelled by the corresponding pure
list operations.
-/

namespace Absensi

/-- Attendance status enumeration, from the migration and the Joi schemas. -/
inductive Status where
  | Present
  | Absent
  | Late
  | Excused
deriving DecidableEq, Repr

/-- Per-status counters, mirroring the object literal
`{ Present: 0, Absent: 0, Late: 0, Excused: 0 }` built by the charts route. -/
structure Counts where
  Present : Nat
  Absent : Nat
  Late : Nat
  Excused : Nat
deriving DecidableEq, Repr

/-- The zero-initialised counter object. -/
def Counts.zero : Counts := ⟨0, 0, 0, 0⟩

/-- The `counts[record.status]++` update of the charts route. -/
def Counts.incr (c : Counts) : Status → Counts
  | .Present => { c with Present := c.Present + 1 }
  | .Absent => { c with Absent := c.Absent + 1 }
  | .Late => { c with Late := c.Late + 1 }
  | .Excused => { c with Excused := c.Excused + 1 }

/-- The `Object.values(counts).reduce((sum, count) => sum + count, 0)` total. -/
def Counts.total (c : Counts) : Nat := c.Present + c.Absent + c.Late + c.Excused

/-- One attendance row as consumed by the charts aggregation: a date string
and a status. -/
structure ChartRow where
  date : String
  status : Status
deriving DecidableEq, Repr

/-- One step of the `chartData.daily` grouping: if the date key is already
present, increment its counter for the given status (the first, hence only,
entry with that key); otherwise append a fresh zero counter incremented once.
This models the JavaScript object `chartData.daily`, whose non-numeric string
keys enumerate in insertion order. -/
def updateDaily : List (String × Counts) → String → Status → List (String × Counts)
  | [], d, s => [(d, Counts.zero.incr s)]
  | (d0, c) :: rest, d, s =>
      if d0 = d then (d0, c.incr s) :: rest
      else (d0, c) :: updateDaily rest d s

/-- The `chartData.daily` mapping after the `data.forEach` loop of the charts
route: a date-keyed association list in first-seen key order. -/
def chartDaily (rows : List ChartRow) : List (String × Counts) :=
  rows.foldl (fun acc r => updateDaily acc r.date r.status) []

/-- The `chartData.statusCounts` accumulator of the charts route. -/
def statusCounts (rows : List ChartRow) : Counts :=
  rows.foldl (fun c r => c.incr r.status) Counts.zero

/-- One entry of the `chartData.trends` array. -/
structure Trend where
  date : String
  Present : Nat
  Absent : Nat
  Late : Nat
  Excused : Nat
  total : Nat
deriving DecidableEq, Repr

/-- The `chartData.trends` array: `Object.entries(chartData.daily)` mapped to
records carrying the four counts and their sum. -/
def trends (rows : List ChartRow) : List Trend :=
  (chartDaily rows).map fun p =>
    ⟨p.1, p.2.Present, p.2.Absent, p.2.Late, p.2.Excused, p.2.total⟩

/-- Specification-side deduplication keeping the first occurrence of every
element, in first-occurrence order. -/
def dedupFirst : List String → List String
  | [] => []
  | d :: rest => d :: (dedupFirst rest).filter (fun x => x ≠ d)

/-- Specification-side count of the rows carrying a given date and status. -/
def countStatus (rows : List ChartRow) (d : String) (s : Status) : Nat :=
  (rows.filter (fun r => r.date = d ∧ r.status = s)).length

/-- Specification-side per-date counters, one count per status. -/
def specCounts (rows : List ChartRow) (d : String) : Counts :=
  ⟨countStatus rows d .Present, countStatus rows d .Absent,
   countStatus rows d .Late, countStatus rows d .Excused⟩

/-- Specification-side trend entry for a date: the four per-status counts of
that date plus their sum. -/
def specTrend (rows : List ChartRow) (d : String) : Trend :=
  let c := specCounts rows d
  ⟨d, c.Present, c.Absent, c.Late, c.Excused,
   c.Present + c.Absent + c.Late + c.Excused⟩

/-- A row of the `classes` table. -/
structure ClassRow where
  id : String
  class_name : String
  grade : Int
deriving DecidableEq, Repr

/-- Gender enumeration, from the migration and the student Joi schema. -/
inductive Gender where
  | Male
  | Female
deriving DecidableEq, Repr

/-- A row of the `students` table. -/
structure StudentRow where
  id : String
  name : String
  class_id : String
  gender : Gender
  date_of_birth : Int
deriving DecidableEq, Repr

/-- A row of the `attendance` table.  Dates and creation timestamps are
modelled as integers (day number respectively clock value). -/
structure AttRow where
  id : Nat
  student_id : String
  date : Int
  status : Status
  created_at : Int
deriving DecidableEq, Repr

/-- The state of the external relational store: the three tables plus a
counter standing in for the id generator of the store. -/
structure DB where
  classes : List ClassRow
  students : List StudentRow
  attendance : List AttRow
  nextId : Nat
deriving DecidableEq, Repr

/-- Outcome of a mutating route: success, or an HTTP-style client error with
status code and message. -/
inductive ApiResp where
  | ok
  | err (code : Nat) (msg : String)
deriving DecidableEq, Repr

/-- The upsert of one attendance row with `onConflict: (student_id, date)`:
the conflicting stored row (unique by the store constraint) keeps its id and
creation time and receives the submitted status; if no row conflicts, a fresh
row is appended with a new id and the current clock. -/
def upsertRow : List AttRow → Nat → Int → String → Int → Status → List AttRow
  | [], nid, now, sid, d, st => [⟨nid, sid, d, st, now⟩]
  | a :: rest, nid, now, sid, d, st =>
      if a.student_id = sid ∧ a.date = d then { a with status := st } :: rest
      else a :: upsertRow rest nid now sid d st

/-- POST /api/attendance (single write, after schema validation): confirm the
referenced student exists, else answer 400 without writing; otherwise upsert
on (student_id, date). -/
def postAttendance (db : DB) (now : Int) (sid : String) (d : Int) (st : Status) :
    ApiResp × DB :=
  match db.students.find? (fun s => s.id = sid) with
  | none => (.err 400 "Student not found", db)
  | some _ =>
      (.ok, { db with
                attendance := upsertRow db.attendance db.nextId now sid d st,
                nextId := db.nextId + 1 })

/-- One record of a bulk submission: a student id and a status (the date is
shared by the whole batch). -/
structure BulkRec where
  student_id : String
  status : Status
deriving DecidableEq, Repr

/-- A stamped bulk record: the shared date copied onto the record, as done by
`value.records.map(record => ({ ...record, date: value.date }))`. -/
structure StampedRec where
  student_id : String
  date : Int
  status : Status
deriving DecidableEq, Repr

/-- The stamping step of the bulk route: every submitted record receives the
single shared date of the submission. -/
def stampRecords (records : List BulkRec) (d : Int) : List StampedRec :=
  records.map fun r => ⟨r.student_id, d, r.status⟩

/-- Sequential upsert of a batch of stamped records, each insert drawing a
fresh id. -/
def upsertMany : List AttRow → Nat → Int → List StampedRec → List AttRow
  | att, _, _, [] => att
  | att, nid, now, r :: rest =>
      upsertMany (upsertRow att nid now r.student_id r.date r.status) (nid + 1) now rest

/-- POST /api/attendance/bulk (after schema validation): stamp every record
with the shared date, select the students whose id occurs among the submitted
ids, and compare the number of matched students with the number of submitted
ids; on mismatch answer 400 and write nothing, otherwise upsert the whole
batch on (student_id, date). -/
def bulkPost (db : DB) (now : Int) (d : Int) (records : List BulkRec) :
    ApiResp × DB :=
  let attendanceRecords := stampRecords records d
  let studentIds := attendanceRecords.map StampedRec.student_id
  let matched := db.students.filter (fun s => s.id ∈ studentIds)
  if matched.length ≠ studentIds.length then
    (.err 400 "One or more students not found", db)
  else
    (.ok, { db with
              attendance := upsertMany db.attendance db.nextId now attendanceRecords,
              nextId := db.nextId + records.length })

/-- DELETE /api/classes/:id: refuse when at least one student references the
class (the route reads students of the class with limit 1 and tests the
length), otherwise delete the class row.  When no class row matches, the
delete-select-single call of the route yields a zero-rows client-library
error (PGRST116), which the route rethrows into its catch handler, producing
the generic 500 failure; the not-found branch after the throw is dead code. -/
def deleteClass (db : DB) (id : String) : ApiResp × DB :=
  let students := (db.students.filter (fun s => s.class_id = id)).take 1
  if students.length > 0 then
    (.err 400 "Cannot delete class with existing students", db)
  else
    match db.classes.find? (fun c => c.id = id) with
    | none => (.err 500 "Failed to delete class", db)
    | some _ =>
        (.ok, { db with classes := db.classes.filter (fun c => ¬(c.id = id)) })

/-- The class-and-date view entry for the attendance of one student: id,
status and date of the stored record. -/
structure AttView where
  id : Nat
  status : Status
  date : Int
deriving DecidableEq, Repr

/-- One entry of the class-and-date view: a student together with the
attendance record data of the requested date, or none when no record exists. -/
structure StudentView where
  student : StudentRow
  attendance : Option AttView
deriving DecidableEq, Repr

/-- Lexicographic comparison of character lists by code point, the order the
store applies for ORDER BY over a text column. -/
def lexLe : List Char → List Char → Bool
  | [], _ => true
  | _ :: _, [] => false
  | a :: as, b :: bs =>
      if a.toNat < b.toNat then true
      else if b.toNat < a.toNat then false
      else lexLe as bs

/-- The order-by-name relation used by the store for the student list. -/
def byName (a b : StudentRow) : Prop := lexLe a.name.data b.name.data = true

instance : DecidableRel byName := fun a b =>
  inferInstanceAs (Decidable (lexLe a.name.data b.name.data = true))

/-- GET /api/attendance/class/:classId/date/:date: fetch the students of the
class ordered by name, fetch the attendance rows of that student set on the
date, and join in memory, attaching null when a student has no record. -/
def getClassAttendanceForDate (db : DB) (classId : String) (d : Int) :
    List StudentView :=
  let students := List.insertionSort byName
    (db.students.filter (fun s => s.class_id = classId))
  let studentIds := students.map StudentRow.id
  let attendanceRecords := db.attendance.filter
    (fun a => a.student_id ∈ studentIds ∧ a.date = d)
  students.map fun s =>
    match attendanceRecords.find? (fun a => a.student_id = s.id) with
    | some a => ⟨s, some ⟨a.id, a.status, a.date⟩⟩
    | none => ⟨s, none⟩

/-- The optional query parameters of GET /api/attendance. -/
structure AttQuery where
  student_id : Option String
  class_id : Option String
  date : Option Int
  start_date : Option Int
  end_date : Option Int
  status : Option Status
  limit : Option Nat
  offset : Option Nat
deriving DecidableEq, Repr

/-- The class of the student referenced by an attendance row, through the
students join. -/
def studentClassId (db : DB) (sid : String) : Option String :=
  (db.students.find? (fun s => s.id = sid)).map StudentRow.class_id

/-- One conditionally applied filter: when the query parameter is absent the
filter is not applied (every row passes), otherwise the row must satisfy it. -/
def optCheck {α : Type} (o : Option α) (f : α → Bool) : Bool :=
  match o with
  | none => true
  | some v => f v

/-- The conjunction of the row-level filters applied by GET /api/attendance,
one conditional eq/gte/lte per supplied parameter.  The class parameter is
applied to the embedded students resource without an inner-join marker, so
it does not restrict the attendance rows at all (see rowEmbed); it is
therefore absent here. -/
def matchesQuery (_db : DB) (q : AttQuery) (r : AttRow) : Bool :=
  optCheck q.student_id (fun v => r.student_id = v) &&
  optCheck q.date (fun v => r.date = v) &&
  optCheck q.start_date (fun v => v ≤ r.date) &&
  optCheck q.end_date (fun v => r.date ≤ v) &&
  optCheck q.status (fun v => r.status = v)

/-- The student object embedded into a returned attendance row.  A filter on
the embedded resource (eq on students.class_id, with no inner-join marker)
only filters the embed: the attendance row survives and its student payload
is nulled when the class does not match. -/
def rowEmbed (db : DB) (q : AttQuery) (r : AttRow) : Option StudentRow :=
  (db.students.find? (fun s => s.id = r.student_id)).bind fun s =>
    match q.class_id with
    | none => some s
    | some v => if s.class_id = v then some s else none

/-- The ordering applied by GET /api/attendance: date descending, then
creation time descending. -/
def attOrder (a b : AttRow) : Prop :=
  b.date < a.date ∨ (a.date = b.date ∧ b.created_at ≤ a.created_at)

instance : DecidableRel attOrder := fun a b =>
  inferInstanceAs (Decidable (b.date < a.date ∨ (a.date = b.date ∧ b.created_at ≤ a.created_at)))

/-- Number of decimal digits of the canonical numeral of n, computed with a
structural fuel argument (1 digit for n below 10). -/
def digitsLenAux : Nat → Nat → Nat
  | 0, _ => 1
  | fuel + 1, n => if n < 10 then 1 else digitsLenAux fuel (n / 10) + 1

/-- Number of decimal digits of the canonical numeral of n. -/
def digitsLen (n : Nat) : Nat := digitsLenAux n n

/-- The JavaScript + operator applied to a string and a number: the decimal
numerals are concatenated and the result read back as a number. -/
def decimalConcat (a b : Nat) : Nat := a * 10 ^ digitsLen b + b

/-- The first index handed to range: the offset, defaulting to 0. -/
def rangeFrom (q : AttQuery) : Nat := q.offset.getD 0

/-- The second index handed to range, offset + limit - 1 as the route
computes it on raw query parameters.  With no offset supplied the default 0
is a number and + adds (the result is limit - 1 even when the limit arrives
as a string); with an offset supplied the parameter is a string, so + is
decimal concatenation of offset and limit before the numeric - 1. -/
def rangeTo (q : AttQuery) : Int :=
  match q.offset with
  | none => (q.limit.getD 100 : Int) - 1
  | some off => (decimalConcat off (q.limit.getD 100) : Int) - 1

/-- GET /api/attendance: filter by the supplied row-level parameters, order
by date descending then creation time descending, and return the rows at
positions rangeFrom through rangeTo inclusive, with limit defaulting to 100
and offset to 0. -/
def listAttendance (db : DB) (q : AttQuery) : List AttRow :=
  let rows := List.insertionSort attOrder (db.attendance.filter (matchesQuery db q))
  (rows.drop (rangeFrom q)).take (rangeTo q + 1 - (rangeFrom q : Int)).toNat

/-- A raw class-creation payload as received by POST /api/classes.  The grade
arrives as a (possibly non-integral) number, modelled as a rational. -/
structure ClassPayload where
  class_name : String
  grade : ℚ
deriving DecidableEq, Repr

/-- Hexadecimal-digit test used by the uuid format check. -/
def isHexDigit (c : Char) : Bool :=
  c.isDigit || (decide (Char.toNat 'a' ≤ c.toNat) && decide (c.toNat ≤ Char.toNat 'f')) ||
    (decide (Char.toNat 'A' ≤ c.toNat) && decide (c.toNat ≤ Char.toNat 'F'))

/-- Structural uuid format test: 36 characters, hyphens at positions 8, 13,
18 and 23, hexadecimal digits elsewhere.  It stands in for the format check
performed by the external validation library on uuid-tagged string fields. -/
def isUuid (s : String) : Bool :=
  let cs := s.data
  decide (cs.length = 36) &&
  (List.range 36).all fun i =>
    if i = 8 ∨ i = 13 ∨ i = 18 ∨ i = 23 then cs.getD i ' ' = '-'
    else isHexDigit (cs.getD i ' ')

/-- The class Joi schema: class_name a string of length 1 to 50, grade an
integral number between 1 and 12.  Fields are checked in schema order and the
first failing field is reported (abort-early validation). -/
def validateClass (p : ClassPayload) : Except String ClassPayload :=
  if p.class_name.length < 1 then .error "class_name"
  else if p.class_name.length > 50 then .error "class_name"
  else if ¬(p.grade.den = 1) then .error "grade"
  else if p.grade < 1 then .error "grade"
  else if p.grade > 12 then .error "grade"
  else .ok p

/-- A raw student-creation payload: strings as received, the date of birth
already parsed (none when the submitted date cannot be parsed). -/
structure StudentPayload where
  name : String
  class_id : String
  gender : String
  date_of_birth : Option Int
deriving DecidableEq, Repr

/-- The student Joi schema: name of length 2 to 100, class_id a uuid, gender
Male or Female, date_of_birth a well-formed date not after now.  Abort-early,
fields in schema order. -/
def validateStudent (now : Int) (p : StudentPayload) : Except String StudentPayload :=
  if p.name.length < 2 then .error "name"
  else if p.name.length > 100 then .error "name"
  else if ¬(isUuid p.class_id = true) then .error "class_id"
  else if ¬(p.gender = "Male" ∨ p.gender = "Female") then .error "gender"
  else
    match p.date_of_birth with
    | none => .error "date_of_birth"
    | some dob => if dob > now then .error "date_of_birth" else .ok p

/-- A raw attendance payload: student id string, a parsed date (none when
ill-formed) and a raw status string. -/
structure AttendancePayload where
  student_id : String
  date : Option Int
  status : String
deriving DecidableEq, Repr

/-- The attendance Joi schema: student_id a uuid, date a well-formed date,
status one of the four statuses.  Abort-early, fields in schema order. -/
def validateAttendance (p : AttendancePayload) : Except String AttendancePayload :=
  if ¬(isUuid p.student_id = true) then .error "student_id"
  else
    match p.date with
    | none => .error "date"
    | some _ =>
        if ¬(p.status = "Present" ∨ p.status = "Absent" ∨
             p.status = "Late" ∨ p.status = "Excused") then .error "status"
        else .ok p

/-- The dashboard attendance-rate computation: present and absent counts of
the day, their sum as denominator, and the rounded percentage, 0 when the
denominator is 0 (`Math.round((presentToday / totalToday) * 100)`). -/
def attendanceRate (todayAttendance : List AttRow) : Nat :=
  let presentToday := (todayAttendance.filter (fun a => a.status = Status.Present)).length
  let absentToday := (todayAttendance.filter (fun a => a.status = Status.Absent)).length
  let totalToday := presentToday + absentToday
  if totalToday > 0 then
    (round (((presentToday : ℚ) / (totalToday : ℚ)) * 100)).toNat
  else 0

/-- Specification-side attendance rate on plain naturals: present divided by
present plus absent, as a percentage rounded half-up, 0 for an empty
denominator. -/
def specRate (p a : Nat) : Nat :=
  if p + a = 0 then 0 else (200 * p + (p + a)) / (2 * (p + a))

/-- A small concrete store used by the witness theorems: one class, two
students, one attendance record. -/
def exDB : DB :=
  ⟨[⟨"c1", "Kelas A", 1⟩],
   [⟨"s1", "Andi", "c1", .Male, 0⟩, ⟨"s2", "Budi", "c1", .Male, 0⟩],
   [⟨0, "s1", 5, .Present, 10⟩],
   1⟩

/-- Ten concrete attendance rows of one day: seven Present and three Absent. -/
def sevenPresentThreeAbsent : List AttRow :=
  ((List.range 7).map fun n => ⟨n, "s", 0, .Present, 0⟩) ++
    ((List.range 3).map fun n => ⟨7 + n, "s", 0, .Absent, 0⟩)

/-- Two attendance rows do not collide on the (student_id, date) key.  The
store constraint UNIQUE(student_id, date) makes every stored attendance table
pairwise distinct in this sense. -/
def distinctKey (a b : AttRow) : Prop :=
  ¬(a.student_id = b.student_id ∧ a.date = b.date)

/-- A concrete store with two classes, one student in each, and four
attendance rows, used to exhibit the class-filter and pagination behaviour
of the attendance listing. -/
def exDB9 : DB :=
  ⟨[⟨"c1", "Kelas A", 1⟩, ⟨"c2", "Kelas B", 2⟩],
   [⟨"s1", "Andi", "c1", .Male, 0⟩, ⟨"s2", "Budi", "c2", .Male, 0⟩],
   [⟨0, "s1", 5, .Present, 10⟩, ⟨1, "s2", 5, .Absent, 11⟩,
    ⟨2, "s1", 6, .Late, 12⟩, ⟨3, "s2", 6, .Excused, 13⟩],
   4⟩

/-! ### The two store orderings are total preorders -/

theorem lexLe_total : ∀ u v : List Char, lexLe u v = true ∨ lexLe v u = true
  | [], _ => Or.inl rfl
  | _ :: _, [] => Or.inr rfl
  | a :: as, b :: bs => by
    simp only [lexLe]
    by_cases hab : a.toNat < b.toNat
    · exact Or.inl (by rw [if_pos hab])
    · by_cases hba : b.toNat < a.toNat
      · exact Or.inr (by rw [if_pos hba])
      · rcases lexLe_total as bs with h | h
        · exact Or.inl (by rw [if_neg hab, if_neg hba]; exact h)
        · exact Or.inr (by rw [if_neg hba, if_neg hab]; exact h)

theorem lexLe_trans :
    ∀ u v w : List Char, lexLe u v = true → lexLe v w = true → lexLe u w = true
  | [], _, _, _, _ => rfl
  | _ :: _, [], _, h, _ => by simp [lexLe] at h
  | _ :: _, _ :: _, [], _, h2 => by simp [lexLe] at h2
  | a :: as, b :: bs, c :: cs, h, h2 => by
    simp only [lexLe] at h h2 ⊢
    have hab : a.toNat ≤ b.toNat := by
      by_contra hc
      rw [if_neg (by omega), if_pos (by omega)] at h
      exact Bool.false_ne_true h
    have hbc : b.toNat ≤ c.toNat := by
      by_contra hc
      rw [if_neg (by omega), if_pos (by omega)] at h2
      exact Bool.false_ne_true h2
    by_cases hac : a.toNat < c.toNat
    · rw [if_pos hac]
    · rw [if_neg (by omega), if_neg (by omega)] at h
      rw [if_neg (by omega), if_neg (by omega)] at h2
      rw [if_neg hac, if_neg (by omega)]
      exact lexLe_trans as bs cs h h2

instance : IsTotal StudentRow byName := ⟨fun a b => lexLe_total a.name.data b.name.data⟩

instance : IsTrans StudentRow byName :=
  ⟨fun a b c => lexLe_trans a.name.data b.name.data c.name.data⟩

instance : IsTotal AttRow attOrder :=
  ⟨fun a b => by
    unfold attOrder
    rcases lt_trichotomy a.date b.date with h | h | h
    · exact Or.inr (Or.inl h)
    · rcases le_total b.created_at a.created_at with h2 | h2
      · exact Or.inl (Or.inr ⟨h, h2⟩)
      · exact Or.inr (Or.inr ⟨h.symm, h2⟩)
    · exact Or.inl (Or.inl h)⟩

instance : IsTrans AttRow attOrder :=
  ⟨fun a b c hab hbc => by
    unfold attOrder at hab hbc ⊢
    rcases hab with h | ⟨h, h2⟩ <;> rcases hbc with h3 | ⟨h3, h4⟩ <;>
      [skip; skip; skip; skip] <;> omega⟩

/-! ### Lemmas about the chart aggregation -/

theorem updateDaily_of_not_mem (l : List (String × Counts)) (d : String) (s : Status)
    (h : d ∉ l.map Prod.fst) :
    updateDaily l d s = l ++ [(d, Counts.zero.incr s)] := by
  induction l with
  | nil => rfl
  | cons p rest ih =>
    obtain ⟨d0, c⟩ := p
    simp only [List.map_cons, List.mem_cons, not_or] at h
    simp only [updateDaily, if_neg (Ne.symm h.1), List.cons_append, ih h.2]

theorem updateDaily_map_incr (ks : List String) (f : String → Counts) (k : String)
    (s : Status) (hk : k ∈ ks) (hnd : ks.Nodup) :
    updateDaily (ks.map fun x => (x, f x)) k s =
      ks.map fun x => (x, if k = x then (f x).incr s else f x) := by
  induction ks with
  | nil => cases hk
  | cons d ks ih =>
    rw [List.nodup_cons] at hnd
    by_cases hd : d = k
    · subst hd
      simp only [List.map_cons, updateDaily, if_pos rfl, if_pos rfl]
      refine congrArg _ (List.map_congr_left fun x hx => ?_)
      have : d ≠ x := fun he => hnd.1 (he ▸ hx)
      rw [if_neg this]
    · have hk2 : k ∈ ks := by
        rcases List.mem_cons.mp hk with h | h
        · exact absurd h.symm hd
        · exact h
      have hkd : ¬(k = d) := fun he => hd he.symm
      simp only [List.map_cons, updateDaily, if_neg hd, if_neg hkd, ih hk2 hnd.2]

theorem mem_dedupFirst (l : List String) (a : String) : a ∈ dedupFirst l ↔ a ∈ l := by
  induction l with
  | nil => simp [dedupFirst]
  | cons d rest ih =>
    by_cases ha : a = d
    · subst ha; simp [dedupFirst]
    · simp [dedupFirst, List.mem_filter, ih, ha]

theorem nodup_dedupFirst (l : List String) : (dedupFirst l).Nodup := by
  induction l with
  | nil => exact List.nodup_nil
  | cons d rest ih =>
    refine List.nodup_cons.mpr ⟨fun hm => ?_, ih.filter _⟩
    have := (List.mem_filter.mp hm).2
    simp at this

theorem dedupFirst_concat (l : List String) (e : String) :
    dedupFirst (l ++ [e]) = if e ∈ l then dedupFirst l else dedupFirst l ++ [e] := by
  induction l with
  | nil => simp [dedupFirst]
  | cons d rest ih =>
    have hstep : dedupFirst ((d :: rest) ++ [e]) =
        d :: (dedupFirst (rest ++ [e])).filter (fun x => x ≠ d) := rfl
    rw [hstep, ih]
    by_cases he : e ∈ rest
    · rw [if_pos he, if_pos (List.mem_cons.mpr (Or.inr he))]
      rfl
    · rw [if_neg he, List.filter_append]
      by_cases hd : e = d
      · have h0 : [e].filter (fun x => x ≠ d) = [] := by simp [hd]
        rw [if_pos (List.mem_cons.mpr (Or.inl hd)), h0, List.append_nil]
        rfl
      · have h0 : [e].filter (fun x => x ≠ d) = [e] := by simp [hd]
        have h1 : e ∉ d :: rest := by
          intro hc
          rcases List.mem_cons.mp hc with h | h
          · exact hd h
          · exact he h
        rw [if_neg h1, h0]
        rfl

theorem countStatus_concat (rows : List ChartRow) (r : ChartRow) (d : String) (s : Status) :
    countStatus (rows ++ [r]) d s =
      countStatus rows d s + (if r.date = d ∧ r.status = s then 1 else 0) := by
  by_cases h : r.date = d ∧ r.status = s <;>
    simp [countStatus, List.filter_append, h]

theorem specCounts_concat (rows : List ChartRow) (r : ChartRow) (d : String) :
    specCounts (rows ++ [r]) d =
      if r.date = d then (specCounts rows d).incr r.status else specCounts rows d := by
  cases hs : r.status <;> by_cases hd : r.date = d <;>
    simp [specCounts, countStatus_concat, Counts.incr, hd, hs]

theorem specCounts_eq_zero (rows : List ChartRow) (d : String)
    (h : ∀ r ∈ rows, r.date ≠ d) : specCounts rows d = Counts.zero := by
  have hz : ∀ s : Status, countStatus rows d s = 0 := by
    intro s
    simp only [countStatus, List.length_eq_zero, List.filter_eq_nil_iff]
    intro r hr
    simp [h r hr]
  simp [specCounts, hz, Counts.zero]

theorem chartDaily_concat (rows : List ChartRow) (r : ChartRow) :
    chartDaily (rows ++ [r]) = updateDaily (chartDaily rows) r.date r.status := by
  simp [chartDaily, List.foldl_append]

theorem chartDaily_eq (rows : List ChartRow) :
    chartDaily rows =
      (dedupFirst (rows.map ChartRow.date)).map fun d => (d, specCounts rows d) := by
  induction rows using List.reverseRecOn with
  | nil => rfl
  | append_singleton rows r ih =>
    rw [chartDaily_concat, ih, List.map_append, List.map_singleton, dedupFirst_concat]
    by_cases hm : r.date ∈ rows.map ChartRow.date
    · rw [if_pos hm,
        updateDaily_map_incr _ _ _ _ ((mem_dedupFirst _ _).mpr hm) (nodup_dedupFirst _)]
      refine (List.map_congr_left fun d hd => ?_).symm
      rw [specCounts_concat]
    · rw [if_neg hm,
        updateDaily_of_not_mem _ _ _ (by
          rw [List.map_map]
          simpa [Function.comp] using fun hc => hm ((mem_dedupFirst _ _).mp hc)),
        List.map_append, List.map_singleton]
      have h1 : ∀ d ∈ dedupFirst (rows.map ChartRow.date),
          specCounts (rows ++ [r]) d = specCounts rows d := by
        intro d hd
        refine (specCounts_concat rows r d).trans (if_neg fun he => hm ?_)
        exact he ▸ (mem_dedupFirst _ _).mp hd
      have h2 : specCounts (rows ++ [r]) r.date = Counts.zero.incr r.status := by
        have hz : ∀ x ∈ rows, x.date ≠ r.date := by
          intro x hx he
          exact hm (he ▸ List.mem_map_of_mem ChartRow.date hx)
        rw [specCounts_concat, if_pos rfl, specCounts_eq_zero rows r.date hz]
      have h3 : (dedupFirst (rows.map ChartRow.date)).map
            (fun d => (d, specCounts (rows ++ [r]) d)) =
          (dedupFirst (rows.map ChartRow.date)).map (fun d => (d, specCounts rows d)) :=
        List.map_congr_left fun d hd => by rw [h1 d hd]
      rw [h3, h2]

/-! ### Claim theorems -/

/-- C1: on the input rows (2024-01-01, Present), (2024-01-01, Absent),
(2024-01-02, Present), the chart aggregation produces the stated per-date
trend entries in that order, and the stated overall status counts. -/
theorem chart_aggregation_example :
    trends [⟨"2024-01-01", .Present⟩, ⟨"2024-01-01", .Absent⟩, ⟨"2024-01-02", .Present⟩] =
      [⟨"2024-01-01", 1, 1, 0, 0, 2⟩, ⟨"2024-01-02", 1, 0, 0, 0, 1⟩] ∧
    statusCounts [⟨"2024-01-01", .Present⟩, ⟨"2024-01-01", .Absent⟩, ⟨"2024-01-02", .Present⟩] =
      ⟨2, 1, 0, 0⟩ := by
  decide

/-- C2: for every input row list, the trends array carries exactly one entry
per distinct date, in first-occurrence order (it equals the first-seen
deduplication of the input dates mapped through the specification trend),
its date keys are nodup, a date occurs among the entries exactly when some
row carries it (no zero-filling), each per-status field counts the rows with
that date and status, and each total is the sum of the four counts. -/
theorem chart_trends_spec (rows : List ChartRow) :
    trends rows = (dedupFirst (rows.map ChartRow.date)).map (specTrend rows)
    ∧ ((trends rows).map Trend.date).Nodup
    ∧ (∀ d, d ∈ (trends rows).map Trend.date ↔ ∃ r ∈ rows, r.date = d)
    ∧ (∀ t ∈ trends rows,
        t.Present = countStatus rows t.date .Present
        ∧ t.Absent = countStatus rows t.date .Absent
        ∧ t.Late = countStatus rows t.date .Late
        ∧ t.Excused = countStatus rows t.date .Excused
        ∧ t.total = t.Present + t.Absent + t.Late + t.Excused) := by
  have hmain : trends rows = (dedupFirst (rows.map ChartRow.date)).map (specTrend rows) := by
    unfold trends
    rw [chartDaily_eq, List.map_map]
    rfl
  have hkeys : (trends rows).map Trend.date = dedupFirst (rows.map ChartRow.date) := by
    rw [hmain, List.map_map]
    exact List.map_id _
  refine ⟨hmain, ?_, ?_, ?_⟩
  · rw [hkeys]; exact nodup_dedupFirst _
  · intro d
    rw [hkeys, mem_dedupFirst]
    constructor
    · intro h
      obtain ⟨r, hr, he⟩ := List.mem_map.mp h
      exact ⟨r, hr, he⟩
    · rintro ⟨r, hr, he⟩
      exact List.mem_map.mpr ⟨r, hr, he⟩
  · intro t ht
    rw [hmain] at ht
    obtain ⟨d, _, rfl⟩ := List.mem_map.mp ht
    exact ⟨rfl, rfl, rfl, rfl, rfl⟩

/-- Witness for C2: the general trends theorem applied to a concrete row
list. -/
theorem chart_trends_spec_witness :
    trends [⟨"2024-02-03", .Late⟩, ⟨"2024-02-03", .Present⟩] =
      (dedupFirst ([ChartRow.mk "2024-02-03" .Late,
        ChartRow.mk "2024-02-03" .Present].map ChartRow.date)).map
        (specTrend [⟨"2024-02-03", .Late⟩, ⟨"2024-02-03", .Present⟩]) :=
  (chart_trends_spec [⟨"2024-02-03", .Late⟩, ⟨"2024-02-03", .Present⟩]).1

/-! ### The dashboard attendance rate -/

theorem round_rate_eq (p t : Nat) (ht : 0 < t) :
    (round (((p : ℚ) / (t : ℚ)) * 100)).toNat = (200 * p + t) / (2 * t) := by
  have ht0 : (t : ℚ) ≠ 0 := Nat.cast_ne_zero.mpr ht.ne'
  have hx : ((p : ℚ) / (t : ℚ)) * 100 + 1 / 2 =
      (((200 * p + t : ℕ) : ℤ) : ℚ) / ((2 * t : ℕ) : ℚ) := by
    push_cast
    field_simp
    ring
  rw [round_eq, hx, Rat.floor_intCast_div_natCast, ← Int.ofNat_ediv, Int.toNat_natCast]

theorem attendanceRate_eq_specRate (l : List AttRow) :
    attendanceRate l =
      specRate (l.filter (fun a => a.status = Status.Present)).length
        (l.filter (fun a => a.status = Status.Absent)).length := by
  unfold attendanceRate
  simp only [specRate]
  by_cases h :
      (l.filter (fun a => a.status = Status.Present)).length +
        (l.filter (fun a => a.status = Status.Absent)).length = 0
  · rw [if_neg (by omega), if_pos h]
  · rw [if_pos (by omega), if_neg h]
    exact round_rate_eq _ _ (Nat.pos_of_ne_zero h)

/-- C3: the dashboard attendance rate equals the present count divided by the
sum of present and absent counts, as a half-up-rounded integer percentage
(specRate computes the floor of 100p/t + 1/2 as (200p + t) / (2t)), is 0 when
that sum is 0, ignores Late and Excused rows, maps 7 Present and 3 Absent to
70, and maps a day without Present or Absent rows to 0. -/
theorem dashboard_rate_spec (l : List AttRow) :
    attendanceRate l =
      specRate (l.filter (fun a => a.status = Status.Present)).length
        (l.filter (fun a => a.status = Status.Absent)).length
    ∧ attendanceRate l =
        attendanceRate (l.filter fun a =>
          a.status = Status.Present ∨ a.status = Status.Absent)
    ∧ attendanceRate sevenPresentThreeAbsent = 70
    ∧ attendanceRate [⟨0, "s1", 0, .Late, 0⟩, ⟨1, "s2", 0, .Excused, 0⟩] = 0 := by
  have hP : (l.filter fun a =>
        a.status = Status.Present ∨ a.status = Status.Absent).filter
      (fun a => a.status = Status.Present) =
        l.filter (fun a => a.status = Status.Present) := by
    rw [List.filter_filter]
    exact List.filter_congr fun a _ => by cases a.status <;> rfl
  have hA : (l.filter fun a =>
        a.status = Status.Present ∨ a.status = Status.Absent).filter
      (fun a => a.status = Status.Absent) =
        l.filter (fun a => a.status = Status.Absent) := by
    rw [List.filter_filter]
    exact List.filter_congr fun a _ => by cases a.status <;> rfl
  refine ⟨attendanceRate_eq_specRate l, ?_, ?_, ?_⟩
  · rw [attendanceRate_eq_specRate, attendanceRate_eq_specRate
      (l.filter fun a => a.status = Status.Present ∨ a.status = Status.Absent), hP, hA]
  · rw [attendanceRate_eq_specRate]
    decide
  · rw [attendanceRate_eq_specRate]
    decide

/-! ### Class deletion -/

/-- C7 (amended): deleting a class referenced by at least one student is
rejected with status 400 and leaves the store unchanged; with zero
referencing students the class row is deleted and everything else is
untouched; with zero referencing students and no such class the zero-rows
read errors inside the route and surfaces as the generic 500 failure of the
catch handler (the 404 branch of the route is unreachable). -/
theorem delete_class_spec (db : DB) (id : String) :
    ((∃ s ∈ db.students, s.class_id = id) →
        deleteClass db id = (.err 400 "Cannot delete class with existing students", db))
    ∧ ((∀ s ∈ db.students, s.class_id ≠ id) → (∃ c ∈ db.classes, c.id = id) →
        (deleteClass db id).1 = .ok
        ∧ (∀ c, c ∈ (deleteClass db id).2.classes ↔ c ∈ db.classes ∧ c.id ≠ id)
        ∧ (deleteClass db id).2.students = db.students
        ∧ (deleteClass db id).2.attendance = db.attendance)
    ∧ ((∀ s ∈ db.students, s.class_id ≠ id) → (∀ c ∈ db.classes, c.id ≠ id) →
        deleteClass db id = (.err 500 "Failed to delete class", db)) := by
  have hkey : (((db.students.filter (fun s => s.class_id = id)).take 1).length > 0) ↔
      ∃ s ∈ db.students, s.class_id = id := by
    rw [List.length_take]
    constructor
    · intro h
      have hne : db.students.filter (fun s => s.class_id = id) ≠ [] := by
        intro hnil
        rw [hnil] at h
        simp at h
      obtain ⟨s, hs⟩ := List.exists_mem_of_ne_nil _ hne
      have hm := List.mem_filter.mp hs
      exact ⟨s, hm.1, by simpa using hm.2⟩
    · rintro ⟨s, hs, he⟩
      have hm : s ∈ db.students.filter (fun s => s.class_id = id) :=
        List.mem_filter.mpr ⟨hs, by simpa using he⟩
      have hlen := List.length_pos.mpr (List.ne_nil_of_mem hm)
      omega
  refine ⟨fun hex => ?_, fun hno hcls => ?_, fun hno hnc => ?_⟩
  · unfold deleteClass
    rw [if_pos (hkey.mpr hex)]
  · have hfs : (db.classes.find? (fun c => c.id = id)).isSome := by
      rw [List.find?_isSome]
      obtain ⟨c, hc, he⟩ := hcls
      exact ⟨c, hc, by simpa using he⟩
    obtain ⟨c, hfind⟩ := Option.isSome_iff_exists.mp hfs
    have hno2 : ¬(((db.students.filter (fun s => s.class_id = id)).take 1).length > 0) := by
      rw [hkey]
      rintro ⟨s, hs, he⟩
      exact hno s hs he
    unfold deleteClass
    rw [if_neg hno2, hfind]
    refine ⟨rfl, fun x => ?_, rfl, rfl⟩
    simp [List.mem_filter]
  · have hfn : db.classes.find? (fun c => c.id = id) = none := by
      rw [List.find?_eq_none]
      intro c hc
      simpa using hnc c hc
    have hno2 : ¬(((db.students.filter (fun s => s.class_id = id)).take 1).length > 0) := by
      rw [hkey]
      rintro ⟨s, hs, he⟩
      exact hno s hs he
    unfold deleteClass
    rw [if_neg hno2, hfn]

/-- Witness for C7: on the concrete store, deleting the class that still has
students is rejected with status 400 and the store is unchanged. -/
theorem delete_class_spec_witness :
    deleteClass exDB "c1" = (.err 400 "Cannot delete class with existing students", exDB) :=
  (delete_class_spec exDB "c1").1 ⟨⟨"s1", "Andi", "c1", .Male, 0⟩, by decide, rfl⟩

/-- Counterexample to C7 as stated: on the concrete store, whose students
all belong to class c1, deleting the missing class zz produces the generic
500 failure of the catch handler, not the claimed not-found response. -/
theorem delete_class_notfound_counterexample :
    deleteClass exDB "zz" = (.err 500 "Failed to delete class", exDB)
    ∧ deleteClass exDB "zz" ≠ (.err 404 "Class not found", exDB) := by
  decide

/-! ### The single-attendance upsert -/

theorem mem_upsertRow (l : List AttRow) (nid : Nat) (now : Int) (sid : String) (d : Int)
    (st : Status) :
    ∀ b ∈ upsertRow l nid now sid d st,
      (∃ c ∈ l, b.student_id = c.student_id ∧ b.date = c.date) ∨
        (b.student_id = sid ∧ b.date = d) := by
  induction l with
  | nil =>
    intro b hb
    rw [List.mem_singleton.mp hb]
    exact Or.inr ⟨rfl, rfl⟩
  | cons a rest ih =>
    intro b hb
    by_cases hk : a.student_id = sid ∧ a.date = d
    · rw [upsertRow, if_pos hk] at hb
      rcases List.mem_cons.mp hb with h | h
      · exact Or.inl ⟨a, List.mem_cons_self a rest, by rw [h]; exact ⟨rfl, rfl⟩⟩
      · exact Or.inl ⟨b, List.mem_cons_of_mem a h, rfl, rfl⟩
    · rw [upsertRow, if_neg hk] at hb
      rcases List.mem_cons.mp hb with h | h
      · exact Or.inl ⟨a, List.mem_cons_self a rest, by rw [h]; exact ⟨rfl, rfl⟩⟩
      · rcases ih b h with ⟨c, hc, he⟩ | he
        · exact Or.inl ⟨c, List.mem_cons_of_mem a hc, he⟩
        · exact Or.inr he

theorem pairwise_upsertRow (l : List AttRow) (nid : Nat) (now : Int) (sid : String)
    (d : Int) (st : Status) (h : l.Pairwise distinctKey) :
    (upsertRow l nid now sid d st).Pairwise distinctKey := by
  induction l with
  | nil => exact List.pairwise_singleton _ _
  | cons a rest ih =>
    rw [List.pairwise_cons] at h
    by_cases hk : a.student_id = sid ∧ a.date = d
    · rw [upsertRow, if_pos hk]
      exact List.pairwise_cons.mpr ⟨fun b hb => h.1 b hb, h.2⟩
    · rw [upsertRow, if_neg hk]
      refine List.pairwise_cons.mpr ⟨fun b hb => ?_, ih h.2⟩
      rcases mem_upsertRow rest nid now sid d st b hb with ⟨c, hc, he1, he2⟩ | ⟨he1, he2⟩
      · intro hcon
        exact h.1 c hc ⟨hcon.1.trans he1, hcon.2.trans he2⟩
      · intro hcon
        exact hk ⟨hcon.1.trans he1, hcon.2.trans he2⟩

theorem filter_upsertRow (l : List AttRow) (nid : Nat) (now : Int) (sid : String)
    (d : Int) (st : Status) (h : l.Pairwise distinctKey) :
    ((upsertRow l nid now sid d st).filter
      (fun a => a.student_id = sid ∧ a.date = d)).map AttRow.status = [st] := by
  induction l with
  | nil => simp [upsertRow]
  | cons a rest ih =>
    rw [List.pairwise_cons] at h
    by_cases hk : a.student_id = sid ∧ a.date = d
    · rw [upsertRow, if_pos hk]
      have hrest : rest.filter (fun a => a.student_id = sid ∧ a.date = d) = [] := by
        rw [List.filter_eq_nil_iff]
        intro b hb
        have := h.1 b hb
        simp only [distinctKey] at this
        simp only [decide_eq_true_eq]
        intro hcon
        exact this ⟨hk.1.trans hcon.1.symm, hk.2.trans hcon.2.symm⟩
      rw [List.filter_cons_of_pos (by simpa using hk), hrest]
      rfl
    · rw [upsertRow, if_neg hk, List.filter_cons_of_neg (by simpa using hk)]
      exact ih h.2

theorem postAttendance_found (db : DB) (now : Int) (sid : String) (d : Int) (st : Status)
    (st0 : StudentRow) (hfind : db.students.find? (fun s => s.id = sid) = some st0) :
    (postAttendance db now sid d st).2.attendance =
        upsertRow db.attendance db.nextId now sid d st
    ∧ (postAttendance db now sid d st).2.students = db.students := by
  unfold postAttendance
  rw [hfind]
  exact ⟨rfl, rfl⟩

/-- C5: writing status x and then status y for the same student and date via
the single-attendance route leaves exactly one stored record with that key,
carrying the later status y, provided the student exists and the stored table
satisfies the (student_id, date) uniqueness constraint. -/
theorem upsert_idempotent (db : DB) (now1 now2 : Int) (s : String) (d : Int)
    (x y : Status) (hstu : ∃ u ∈ db.students, u.id = s)
    (hinv : db.attendance.Pairwise distinctKey) :
    (((postAttendance (postAttendance db now1 s d x).2 now2 s d y).2.attendance.filter
        (fun a => a.student_id = s ∧ a.date = d)).map AttRow.status = [y])
    ∧ ((postAttendance (postAttendance db now1 s d x).2 now2 s d y).2.attendance.filter
        (fun a => a.student_id = s ∧ a.date = d)).length = 1 := by
  obtain ⟨st0, hfind⟩ := Option.isSome_iff_exists.mp (show
      (db.students.find? (fun u => u.id = s)).isSome by
    rw [List.find?_isSome]
    obtain ⟨u, hu, he⟩ := hstu
    exact ⟨u, hu, by simpa using he⟩)
  obtain ⟨h1att, h1stu⟩ := postAttendance_found db now1 s d x st0 hfind
  obtain ⟨h2att, _⟩ := postAttendance_found (postAttendance db now1 s d x).2 now2 s d y st0
    (by rw [h1stu]; exact hfind)
  have hmap : (((postAttendance (postAttendance db now1 s d x).2 now2 s d y).2.attendance.filter
      (fun a => a.student_id = s ∧ a.date = d)).map AttRow.status = [y]) := by
    rw [h2att, h1att]
    exact filter_upsertRow _ _ _ _ _ _
      (pairwise_upsertRow db.attendance db.nextId now1 s d x hinv)
  refine ⟨hmap, ?_⟩
  have := congrArg List.length hmap
  rwa [List.length_map, List.length_singleton] at this

/-- Witness for C5: on the concrete store, writing Absent and then Present
for student s1 on day 7 leaves exactly one record for that key, with status
Present. -/
theorem upsert_idempotent_witness :
    (((postAttendance (postAttendance exDB 1 "s1" 7 .Absent).2 2 "s1" 7 .Present).2.attendance.filter
        (fun a => a.student_id = "s1" ∧ a.date = 7)).map AttRow.status = [.Present])
    ∧ ((postAttendance (postAttendance exDB 1 "s1" 7 .Absent).2 2 "s1" 7 .Present).2.attendance.filter
        (fun a => a.student_id = "s1" ∧ a.date = 7)).length = 1 :=
  upsert_idempotent exDB 1 2 "s1" 7 .Absent .Present
    ⟨⟨"s1", "Andi", "c1", .Male, 0⟩, by decide, rfl⟩ (by simp [exDB])

/-! ### The bulk-attendance existence check -/

theorem stampRecords_ids (records : List BulkRec) (d : Int) :
    (stampRecords records d).map StampedRec.student_id =
      records.map BulkRec.student_id := by
  simp [stampRecords, List.map_map, Function.comp]

theorem stampRecords_date (records : List BulkRec) (d : Int) :
    ∀ a ∈ stampRecords records d, a.date = d := by
  intro a ha
  obtain ⟨r, _, rfl⟩ := List.mem_map.mp ha
  rfl

theorem matched_nodup_ids (students : List StudentRow) (ids : List String)
    (hnd : (students.map StudentRow.id).Nodup) :
    ((students.filter (fun s => s.id ∈ ids)).map StudentRow.id).Nodup :=
  hnd.sublist ((List.filter_sublist students).map StudentRow.id)

theorem matched_length_le (students : List StudentRow) (ids : List String)
    (hnd : (students.map StudentRow.id).Nodup) :
    (students.filter (fun s => s.id ∈ ids)).length ≤ ids.toFinset.card := by
  have hss : ((students.filter (fun s => s.id ∈ ids)).map StudentRow.id).toFinset ⊆
      ids.toFinset := by
    intro x hx
    rw [List.mem_toFinset] at hx ⊢
    obtain ⟨s, hs, rfl⟩ := List.mem_map.mp hx
    simpa using (List.mem_filter.mp hs).2
  calc (students.filter (fun s => s.id ∈ ids)).length
      = ((students.filter (fun s => s.id ∈ ids)).map StudentRow.id).length :=
        (List.length_map _ _).symm
    _ = ((students.filter (fun s => s.id ∈ ids)).map StudentRow.id).toFinset.card :=
        (List.toFinset_card_of_nodup (matched_nodup_ids students ids hnd)).symm
    _ ≤ ids.toFinset.card := Finset.card_le_card hss

theorem matched_length_le_erase (students : List StudentRow) (ids : List String)
    (m : String) (hnd : (students.map StudentRow.id).Nodup)
    (hm : ∀ s ∈ students, s.id ≠ m) :
    (students.filter (fun s => s.id ∈ ids)).length ≤ (ids.toFinset.erase m).card := by
  have hss : ((students.filter (fun s => s.id ∈ ids)).map StudentRow.id).toFinset ⊆
      ids.toFinset.erase m := by
    intro x hx
    rw [List.mem_toFinset] at hx
    obtain ⟨s, hs, rfl⟩ := List.mem_map.mp hx
    rw [Finset.mem_erase, List.mem_toFinset]
    exact ⟨hm s (List.mem_filter.mp hs).1, by simpa using (List.mem_filter.mp hs).2⟩
  calc (students.filter (fun s => s.id ∈ ids)).length
      = ((students.filter (fun s => s.id ∈ ids)).map StudentRow.id).length :=
        (List.length_map _ _).symm
    _ = ((students.filter (fun s => s.id ∈ ids)).map StudentRow.id).toFinset.card :=
        (List.toFinset_card_of_nodup (matched_nodup_ids students ids hnd)).symm
    _ ≤ (ids.toFinset.erase m).card := Finset.card_le_card hss

/-- C4: a bulk submission referencing at least one unknown student id is
rejected with status 400 and the message of the route, the store is left
unchanged (no record created or updated), and every submitted record has been
stamped with the single shared date of the batch. -/
theorem bulk_unknown_student_rejected (db : DB) (now : Int) (d : Int)
    (records : List BulkRec)
    (hnd : (db.students.map StudentRow.id).Nodup)
    (hmiss : ∃ r ∈ records, ∀ s ∈ db.students, s.id ≠ r.student_id) :
    bulkPost db now d records = (.err 400 "One or more students not found", db)
    ∧ ∀ a ∈ stampRecords records d, a.date = d := by
  obtain ⟨r, hr, hmr⟩ := hmiss
  have hmem : r.student_id ∈ (stampRecords records d).map StampedRec.student_id := by
    rw [stampRecords_ids]
    exact List.mem_map_of_mem _ hr
  have hcard : 0 < ((stampRecords records d).map StampedRec.student_id).toFinset.card :=
    Finset.card_pos.mpr ⟨r.student_id, List.mem_toFinset.mpr hmem⟩
  have hle := matched_length_le_erase db.students
    ((stampRecords records d).map StampedRec.student_id) r.student_id hnd hmr
  rw [Finset.card_erase_of_mem (List.mem_toFinset.mpr hmem)] at hle
  have hlen := List.toFinset_card_le ((stampRecords records d).map StampedRec.student_id)
  have hlt : (db.students.filter
      (fun s => s.id ∈ (stampRecords records d).map StampedRec.student_id)).length <
      ((stampRecords records d).map StampedRec.student_id).length := by
    have h1 : 0 < ((stampRecords records d).map StampedRec.student_id).length :=
      List.length_pos.mpr (List.ne_nil_of_mem hmem)
    omega
  refine ⟨?_, stampRecords_date records d⟩
  unfold bulkPost
  rw [if_pos (Nat.ne_of_lt hlt)]

/-- Witness for C4: on the concrete store, a batch naming the unknown id zz
is rejected and every stamped record carries the shared date 5. -/
theorem bulk_unknown_student_rejected_witness :
    bulkPost exDB 0 5 [⟨"s1", .Present⟩, ⟨"zz", .Absent⟩] =
      (.err 400 "One or more students not found", exDB)
    ∧ ∀ a ∈ stampRecords [⟨"s1", .Present⟩, ⟨"zz", .Absent⟩] 5, a.date = 5 :=
  bulk_unknown_student_rejected exDB 0 5 [⟨"s1", .Present⟩, ⟨"zz", .Absent⟩]
    (by decide) (by decide)

/-- C10: a bulk submission in which every id exists but some id occurs twice
is nevertheless rejected with the students-not-found error and stores
nothing, because the matched distinct students are counted against the
non-distinct submitted ids. -/
theorem bulk_duplicate_ids_rejected (db : DB) (now : Int) (d : Int)
    (records : List BulkRec)
    (hnd : (db.students.map StudentRow.id).Nodup)
    (_hall : ∀ r ∈ records, ∃ s ∈ db.students, s.id = r.student_id)
    (hdup : ¬(records.map BulkRec.student_id).Nodup) :
    bulkPost db now d records = (.err 400 "One or more students not found", db) := by
  have hle := matched_length_le db.students
    ((stampRecords records d).map StampedRec.student_id) hnd
  rw [List.card_toFinset] at hle
  have hsub : ((stampRecords records d).map StampedRec.student_id).dedup.length ≤
      ((stampRecords records d).map StampedRec.student_id).length :=
    ((stampRecords records d).map StampedRec.student_id).dedup_sublist.length_le
  have hne : ((stampRecords records d).map StampedRec.student_id).dedup.length ≠
      ((stampRecords records d).map StampedRec.student_id).length := by
    intro he
    have heq := List.Sublist.eq_of_length
      ((stampRecords records d).map StampedRec.student_id).dedup_sublist he
    have hnodup := heq ▸ List.nodup_dedup ((stampRecords records d).map StampedRec.student_id)
    rw [stampRecords_ids] at hnodup
    exact hdup hnodup
  have hlt : (db.students.filter
      (fun s => s.id ∈ (stampRecords records d).map StampedRec.student_id)).length <
      ((stampRecords records d).map StampedRec.student_id).length := by
    omega
  unfold bulkPost
  rw [if_pos (Nat.ne_of_lt hlt)]

/-- Witness for C10: on the concrete store, a batch naming the existing id s1
twice is rejected with the students-not-found error. -/
theorem bulk_duplicate_ids_rejected_witness :
    bulkPost exDB 0 5 [⟨"s1", .Present⟩, ⟨"s1", .Absent⟩] =
      (.err 400 "One or more students not found", exDB) :=
  bulk_duplicate_ids_rejected exDB 0 5 [⟨"s1", .Present⟩, ⟨"s1", .Absent⟩]
    (by decide) (by decide) (by decide)

/-! ### The class-and-date view -/

theorem find?_filter {α : Type} (l : List α) (p q : α → Bool) :
    (l.filter q).find? p = l.find? fun a => p a && q a := by
  induction l with
  | nil => rfl
  | cons a rest ih =>
    by_cases hq : q a
    · rw [List.filter_cons_of_pos hq]
      by_cases hp : p a
      · rw [List.find?_cons_of_pos _ hp, List.find?_cons_of_pos _ (by simp [hp, hq])]
      · rw [List.find?_cons_of_neg _ hp, List.find?_cons_of_neg _ (by simp [hp]), ih]
    · rw [List.filter_cons_of_neg hq, List.find?_cons_of_neg _ (by simp [hq]), ih]

/-- C6: the class-and-date view lists exactly the students of the class,
sorted by name, each paired through an in-memory left outer join with the
id, status and date of its attendance record on the requested date, or with
none (not a defaulted Absent) when no record exists; on the concrete store
with students Andi and Budi and a record only for Andi, the view yields Andi
with the record and Budi with none. -/
theorem class_date_view_spec (db : DB) (classId : String) (d : Int) :
    getClassAttendanceForDate db classId d =
      (List.insertionSort byName (db.students.filter (fun s => s.class_id = classId))).map
        (fun s => ⟨s, (db.attendance.find? (fun a => a.student_id = s.id ∧ a.date = d)).map
          (fun a => ⟨a.id, a.status, a.date⟩)⟩)
    ∧ ((getClassAttendanceForDate db classId d).map StudentView.student).Perm
        (db.students.filter (fun s => s.class_id = classId))
    ∧ ((getClassAttendanceForDate db classId d).map StudentView.student).Pairwise byName
    ∧ (∀ v ∈ getClassAttendanceForDate db classId d,
        v.attendance = none ↔
          ∀ a ∈ db.attendance, ¬(a.student_id = v.student.id ∧ a.date = d))
    ∧ getClassAttendanceForDate exDB "c1" 5 =
        [⟨⟨"s1", "Andi", "c1", .Male, 0⟩, some ⟨0, .Present, 5⟩⟩,
         ⟨⟨"s2", "Budi", "c1", .Male, 0⟩, none⟩] := by
  have hmain : getClassAttendanceForDate db classId d =
      (List.insertionSort byName (db.students.filter (fun s => s.class_id = classId))).map
        (fun s => ⟨s, (db.attendance.find? (fun a => a.student_id = s.id ∧ a.date = d)).map
          (fun a => ⟨a.id, a.status, a.date⟩)⟩) := by
    unfold getClassAttendanceForDate
    refine List.map_congr_left fun s hs => ?_
    have hsid : s.id ∈ (List.insertionSort byName
        (db.students.filter (fun u => u.class_id = classId))).map StudentRow.id :=
      List.mem_map_of_mem _ hs
    rw [find?_filter]
    have hfun : (fun a : AttRow => decide (a.student_id = s.id) &&
          decide (a.student_id ∈ (List.insertionSort byName
            (db.students.filter (fun u => u.class_id = classId))).map StudentRow.id
            ∧ a.date = d)) =
        (fun a : AttRow => decide (a.student_id = s.id ∧ a.date = d)) := by
      funext a
      by_cases ha : a.student_id = s.id
      · simp [ha, hsid]
      · simp [ha]
    rw [hfun]
    cases hf : db.attendance.find? (fun a => a.student_id = s.id ∧ a.date = d) <;> rfl
  have hstu : (getClassAttendanceForDate db classId d).map StudentView.student =
      List.insertionSort byName (db.students.filter (fun s => s.class_id = classId)) := by
    rw [hmain, List.map_map]
    exact List.map_id _
  refine ⟨hmain, ?_, ?_, ?_, ?_⟩
  · rw [hstu]
    exact List.perm_insertionSort byName _
  · rw [hstu]
    exact List.sorted_insertionSort byName _
  · intro v hv
    rw [hmain] at hv
    obtain ⟨s, hs, rfl⟩ := List.mem_map.mp hv
    show ((db.attendance.find? fun a => a.student_id = s.id ∧ a.date = d).map
        (fun a => AttView.mk a.id a.status a.date) = none) ↔ _
    rw [Option.map_eq_none', List.find?_eq_none]
    constructor
    · intro h a ha
      simpa using h a ha
    · intro h a ha
      simpa using h a ha
  · decide

/-- Witness for C6: the view equation instantiated on the concrete store. -/
theorem class_date_view_spec_witness :
    getClassAttendanceForDate exDB "c1" 5 =
      (List.insertionSort byName (exDB.students.filter (fun s => s.class_id = "c1"))).map
        (fun s => ⟨s, (exDB.attendance.find? (fun a => a.student_id = s.id ∧ a.date = 5)).map
          (fun a => ⟨a.id, a.status, a.date⟩)⟩) :=
  (class_date_view_spec exDB "c1" 5).1

/-! ### The filtered attendance listing -/

theorem optCheck_iff {α : Type} (o : Option α) (f : α → Bool) :
    optCheck o f = true ↔ ∀ v, o = some v → f v = true := by
  cases o <;> simp [optCheck]

theorem matchesQuery_iff (db : DB) (q : AttQuery) (r : AttRow) :
    matchesQuery db q r = true ↔
      (∀ v, q.student_id = some v → r.student_id = v)
      ∧ (∀ v, q.date = some v → r.date = v)
      ∧ (∀ v, q.start_date = some v → v ≤ r.date)
      ∧ (∀ v, q.end_date = some v → r.date ≤ v)
      ∧ (∀ v, q.status = some v → r.status = v) := by
  simp only [matchesQuery, Bool.and_eq_true, optCheck_iff, decide_eq_true_eq]
  tauto

/-- C9 (amended): the attendance listing combines the supplied row-level
filters (student, exact date, date range, status) with AND semantics and
orders by date descending then creation time descending; the class parameter
does not restrict the returned rows (it is applied to the embedded students
resource without an inner-join marker, so it only nulls the embedded student
payload of non-matching rows); with no offset supplied the page is the first
limit rows of the ordering (limit defaulting to 100) and page position i is
ordering position rangeFrom + i; with an offset supplied, the route computes
offset + limit - 1 on the raw string parameter, so + concatenates the
decimal numerals and the page runs from offset to that concatenation minus
one instead of to offset + limit - 1. -/
theorem list_attendance_spec (db : DB) (q : AttQuery) :
    (∀ r, r ∈ db.attendance.filter (matchesQuery db q) ↔
        r ∈ db.attendance
        ∧ (∀ v, q.student_id = some v → r.student_id = v)
        ∧ (∀ v, q.date = some v → r.date = v)
        ∧ (∀ v, q.start_date = some v → v ≤ r.date)
        ∧ (∀ v, q.end_date = some v → r.date ≤ v)
        ∧ (∀ v, q.status = some v → r.status = v))
    ∧ listAttendance db q = listAttendance db { q with class_id := none }
    ∧ (∀ r v s, q.class_id = some v → rowEmbed db q r = some s → s.class_id = v)
    ∧ (List.insertionSort attOrder (db.attendance.filter (matchesQuery db q))).Pairwise
        attOrder
    ∧ (List.insertionSort attOrder (db.attendance.filter (matchesQuery db q))).Perm
        (db.attendance.filter (matchesQuery db q))
    ∧ (q.offset = none → listAttendance db q =
        (List.insertionSort attOrder (db.attendance.filter (matchesQuery db q))).take
          (q.limit.getD 100))
    ∧ (∀ off, q.offset = some off → listAttendance db q =
        ((List.insertionSort attOrder (db.attendance.filter (matchesQuery db q))).drop
          off).take (decimalConcat off (q.limit.getD 100) - off))
    ∧ (∀ i : Nat, i < (listAttendance db q).length →
        (listAttendance db q)[i]? =
          (List.insertionSort attOrder
            (db.attendance.filter (matchesQuery db q)))[rangeFrom q + i]?) := by
  refine ⟨?_, rfl, ?_, ?_, ?_, ?_, ?_, ?_⟩
  · intro r
    rw [List.mem_filter, matchesQuery_iff]
  · intro r v s hv he
    rw [rowEmbed, hv] at he
    obtain ⟨u, _, hif⟩ := Option.bind_eq_some.mp he
    dsimp only at hif
    by_cases hcls : u.class_id = v
    · rw [if_pos hcls, Option.some.injEq] at hif
      rw [← hif]
      exact hcls
    · rw [if_neg hcls] at hif
      exact Option.noConfusion hif
  · exact List.sorted_insertionSort attOrder _
  · exact List.perm_insertionSort attOrder _
  · intro h
    have h1 : rangeFrom q = 0 := by simp [rangeFrom, h]
    show ((List.insertionSort attOrder (db.attendance.filter (matchesQuery db q))).drop
        (rangeFrom q)).take (rangeTo q + 1 - (rangeFrom q : Int)).toNat = _
    rw [h1, show rangeTo q = (q.limit.getD 100 : Int) - 1 from by rw [rangeTo, h],
      List.drop_zero, show ((q.limit.getD 100 : Int) - 1 + 1 - ((0 : Nat) : Int)).toNat =
        q.limit.getD 100 from by omega]
  · intro off h
    have h1 : rangeFrom q = off := by simp [rangeFrom, h]
    show ((List.insertionSort attOrder (db.attendance.filter (matchesQuery db q))).drop
        (rangeFrom q)).take (rangeTo q + 1 - (rangeFrom q : Int)).toNat = _
    rw [h1, show rangeTo q = (decimalConcat off (q.limit.getD 100) : Int) - 1 from by
        rw [rangeTo, h],
      show ((decimalConcat off (q.limit.getD 100) : Int) - 1 + 1 - (off : Int)).toNat =
        decimalConcat off (q.limit.getD 100) - off from by omega]
  · intro i hi
    have hik : i < (rangeTo q + 1 - (rangeFrom q : Int)).toNat := by
      have hlen : (listAttendance db q).length =
          min (rangeTo q + 1 - (rangeFrom q : Int)).toNat
            ((List.insertionSort attOrder (db.attendance.filter (matchesQuery db q))).drop
              (rangeFrom q)).length := by
        simp [listAttendance]
      rw [hlen] at hi
      omega
    show (((List.insertionSort attOrder (db.attendance.filter (matchesQuery db q))).drop
        (rangeFrom q)).take (rangeTo q + 1 - (rangeFrom q : Int)).toNat)[i]? = _
    rw [List.getElem?_take_of_lt hik, List.getElem?_drop]

/-- Witness for C9: with no offset supplied, the page on the concrete store
is the first 100 rows of the ordering. -/
theorem list_attendance_spec_witness :
    listAttendance exDB ⟨none, none, none, none, none, none, none, none⟩ =
      (List.insertionSort attOrder (exDB.attendance.filter
        (matchesQuery exDB ⟨none, none, none, none, none, none, none, none⟩))).take 100 :=
  (list_attendance_spec exDB
    ⟨none, none, none, none, none, none, none, none⟩).2.2.2.2.2.1 rfl

/-- Counterexample to C9 as stated: on the concrete two-class store, the
class filter c1 still returns the rows of the class c2 student (so the class
parameter is not combined with AND semantics), and with offset 1 and limit 2
the returned page is not the slice of positions 1 through 2 of the ordering
(the route computes the upper bound by string concatenation, here 12 - 1). -/
theorem list_attendance_counterexample :
    (studentClassId exDB9 "s2" = some "c2"
      ∧ listAttendance exDB9 ⟨none, some "c1", none, none, none, none, none, none⟩ =
        [⟨3, "s2", 6, .Excused, 13⟩, ⟨2, "s1", 6, .Late, 12⟩,
         ⟨1, "s2", 5, .Absent, 11⟩, ⟨0, "s1", 5, .Present, 10⟩])
    ∧ listAttendance exDB9 ⟨none, none, none, none, none, none, some 2, some 1⟩ ≠
        ((List.insertionSort attOrder (exDB9.attendance.filter
          (matchesQuery exDB9 ⟨none, none, none, none, none, none, some 2, some 1⟩))).drop
          1).take 2 := by
  decide

/-! ### The validation schemas -/

theorem validateClass_ok_iff (cp : ClassPayload) :
    validateClass cp = .ok cp ↔
      (1 ≤ cp.class_name.length ∧ cp.class_name.length ≤ 50 ∧
        cp.grade.den = 1 ∧ 1 ≤ cp.grade ∧ cp.grade ≤ 12) := by
  unfold validateClass
  by_cases h1 : cp.class_name.length < 1
  · rw [if_pos h1]
    exact iff_of_false (by simp) fun hc => absurd hc.1 (by omega)
  rw [if_neg h1]
  by_cases h2 : cp.class_name.length > 50
  · rw [if_pos h2]
    exact iff_of_false (by simp) fun hc => absurd hc.2.1 (by omega)
  rw [if_neg h2]
  by_cases h3 : cp.grade.den = 1
  case neg =>
    rw [if_pos h3]
    exact iff_of_false (by simp) fun hc => h3 hc.2.2.1
  rw [if_neg (not_not_intro h3)]
  by_cases h4 : cp.grade < 1
  · rw [if_pos h4]
    exact iff_of_false (by simp) fun hc => absurd hc.2.2.2.1 (not_le.mpr h4)
  rw [if_neg h4]
  by_cases h5 : cp.grade > 12
  · rw [if_pos h5]
    exact iff_of_false (by simp) fun hc => absurd hc.2.2.2.2 (not_le.mpr h5)
  rw [if_neg h5]
  exact iff_of_true rfl ⟨by omega, by omega, h3, not_lt.mp h4, not_lt.mp h5⟩

theorem validateClass_error_spec (cp : ClassPayload) :
    ∀ e, validateClass cp = .error e →
      (e = "class_name" ∧ ¬(1 ≤ cp.class_name.length ∧ cp.class_name.length ≤ 50))
      ∨ (e = "grade" ∧ (1 ≤ cp.class_name.length ∧ cp.class_name.length ≤ 50)
          ∧ ¬(cp.grade.den = 1 ∧ 1 ≤ cp.grade ∧ cp.grade ≤ 12)) := by
  unfold validateClass
  intro e he
  by_cases h1 : cp.class_name.length < 1
  · rw [if_pos h1, Except.error.injEq] at he
    exact Or.inl ⟨he.symm, by omega⟩
  rw [if_neg h1] at he
  by_cases h2 : cp.class_name.length > 50
  · rw [if_pos h2, Except.error.injEq] at he
    exact Or.inl ⟨he.symm, by omega⟩
  rw [if_neg h2] at he
  by_cases h3 : cp.grade.den = 1
  case neg =>
    rw [if_pos h3, Except.error.injEq] at he
    exact Or.inr ⟨he.symm, ⟨by omega, by omega⟩, fun hc => h3 hc.1⟩
  rw [if_neg (not_not_intro h3)] at he
  by_cases h4 : cp.grade < 1
  · rw [if_pos h4, Except.error.injEq] at he
    exact Or.inr ⟨he.symm, ⟨by omega, by omega⟩,
      fun hc => absurd hc.2.1 (not_le.mpr h4)⟩
  rw [if_neg h4] at he
  by_cases h5 : cp.grade > 12
  · rw [if_pos h5, Except.error.injEq] at he
    exact Or.inr ⟨he.symm, ⟨by omega, by omega⟩,
      fun hc => absurd hc.2.2 (not_le.mpr h5)⟩
  rw [if_neg h5] at he
  simp at he

theorem validateStudent_ok_iff (now : Int) (sp : StudentPayload) :
    validateStudent now sp = .ok sp ↔
      (2 ≤ sp.name.length ∧ sp.name.length ≤ 100 ∧ isUuid sp.class_id = true ∧
        (sp.gender = "Male" ∨ sp.gender = "Female") ∧
        ∃ dob, sp.date_of_birth = some dob ∧ dob ≤ now) := by
  unfold validateStudent
  by_cases h1 : sp.name.length < 2
  · rw [if_pos h1]
    exact iff_of_false (by simp) fun hc => absurd hc.1 (by omega)
  rw [if_neg h1]
  by_cases h2 : sp.name.length > 100
  · rw [if_pos h2]
    exact iff_of_false (by simp) fun hc => absurd hc.2.1 (by omega)
  rw [if_neg h2]
  by_cases h3 : isUuid sp.class_id = true
  case neg =>
    rw [if_pos h3]
    exact iff_of_false (by simp) fun hc => h3 hc.2.2.1
  rw [if_neg (not_not_intro h3)]
  by_cases h4 : sp.gender = "Male" ∨ sp.gender = "Female"
  case neg =>
    rw [if_pos h4]
    exact iff_of_false (by simp) fun hc => h4 hc.2.2.2.1
  rw [if_neg (not_not_intro h4)]
  cases hdob : sp.date_of_birth with
  | none =>
    refine iff_of_false (by simp) fun hc => ?_
    obtain ⟨dob, hd, _⟩ := hc.2.2.2.2
    exact Option.noConfusion hd
  | some dob =>
    dsimp only
    by_cases h5 : dob > now
    · rw [if_pos h5]
      refine iff_of_false (by simp) fun hc => ?_
      obtain ⟨d0, hd, hle⟩ := hc.2.2.2.2
      obtain rfl : dob = d0 := by injection hd
      omega
    · rw [if_neg h5]
      exact iff_of_true rfl ⟨by omega, by omega, h3, h4, dob, rfl, by omega⟩

theorem validateStudent_error_spec (now : Int) (sp : StudentPayload) :
    ∀ e, validateStudent now sp = .error e →
      (e = "name" ∧ ¬(2 ≤ sp.name.length ∧ sp.name.length ≤ 100))
      ∨ (e = "class_id" ∧ (2 ≤ sp.name.length ∧ sp.name.length ≤ 100)
          ∧ ¬(isUuid sp.class_id = true))
      ∨ (e = "gender" ∧ (2 ≤ sp.name.length ∧ sp.name.length ≤ 100)
          ∧ isUuid sp.class_id = true
          ∧ ¬(sp.gender = "Male" ∨ sp.gender = "Female"))
      ∨ (e = "date_of_birth" ∧ (2 ≤ sp.name.length ∧ sp.name.length ≤ 100)
          ∧ isUuid sp.class_id = true
          ∧ (sp.gender = "Male" ∨ sp.gender = "Female")
          ∧ ¬∃ dob, sp.date_of_birth = some dob ∧ dob ≤ now) := by
  unfold validateStudent
  intro e he
  by_cases h1 : sp.name.length < 2
  · rw [if_pos h1, Except.error.injEq] at he
    exact Or.inl ⟨he.symm, by omega⟩
  rw [if_neg h1] at he
  by_cases h2 : sp.name.length > 100
  · rw [if_pos h2, Except.error.injEq] at he
    exact Or.inl ⟨he.symm, by omega⟩
  rw [if_neg h2] at he
  by_cases h3 : isUuid sp.class_id = true
  case neg =>
    rw [if_pos h3, Except.error.injEq] at he
    exact Or.inr (Or.inl ⟨he.symm, ⟨by omega, by omega⟩, h3⟩)
  rw [if_neg (not_not_intro h3)] at he
  by_cases h4 : sp.gender = "Male" ∨ sp.gender = "Female"
  case neg =>
    rw [if_pos h4, Except.error.injEq] at he
    exact Or.inr (Or.inr (Or.inl ⟨he.symm, ⟨by omega, by omega⟩, h3, h4⟩))
  rw [if_neg (not_not_intro h4)] at he
  cases hdob : sp.date_of_birth with
  | none =>
    rw [hdob] at he
    dsimp only at he
    rw [Except.error.injEq] at he
    refine Or.inr (Or.inr (Or.inr ⟨he.symm, ⟨by omega, by omega⟩, h3, h4, ?_⟩))
    rintro ⟨dob, hd, _⟩
    exact Option.noConfusion hd
  | some dob =>
    rw [hdob] at he
    dsimp only at he
    by_cases h5 : dob > now
    · rw [if_pos h5, Except.error.injEq] at he
      refine Or.inr (Or.inr (Or.inr ⟨he.symm, ⟨by omega, by omega⟩, h3, h4, ?_⟩))
      rintro ⟨d0, hd, hle⟩
      obtain rfl : dob = d0 := by injection hd
      omega
    · rw [if_neg h5] at he
      simp at he

theorem validateAttendance_ok_iff (ap : AttendancePayload) :
    validateAttendance ap = .ok ap ↔
      (isUuid ap.student_id = true ∧ (∃ d0, ap.date = some d0) ∧
        (ap.status = "Present" ∨ ap.status = "Absent" ∨ ap.status = "Late" ∨
          ap.status = "Excused")) := by
  unfold validateAttendance
  by_cases h1 : isUuid ap.student_id = true
  case neg =>
    rw [if_pos h1]
    exact iff_of_false (by simp) fun hc => h1 hc.1
  rw [if_neg (not_not_intro h1)]
  cases hd : ap.date with
  | none =>
    refine iff_of_false (by simp) fun hc => ?_
    obtain ⟨d0, hd0⟩ := hc.2.1
    exact Option.noConfusion hd0
  | some d0 =>
    dsimp only
    by_cases h2 : ap.status = "Present" ∨ ap.status = "Absent" ∨
        ap.status = "Late" ∨ ap.status = "Excused"
    case neg =>
      rw [if_pos h2]
      exact iff_of_false (by simp) fun hc => h2 hc.2.2
    rw [if_neg (not_not_intro h2)]
    exact iff_of_true rfl ⟨h1, ⟨d0, rfl⟩, h2⟩

theorem validateAttendance_error_spec (ap : AttendancePayload) :
    ∀ e, validateAttendance ap = .error e →
      (e = "student_id" ∧ ¬(isUuid ap.student_id = true))
      ∨ (e = "date" ∧ isUuid ap.student_id = true ∧ ap.date = none)
      ∨ (e = "status" ∧ isUuid ap.student_id = true ∧ (∃ d0, ap.date = some d0) ∧
          ¬(ap.status = "Present" ∨ ap.status = "Absent" ∨ ap.status = "Late" ∨
            ap.status = "Excused")) := by
  unfold validateAttendance
  intro e he
  by_cases h1 : isUuid ap.student_id = true
  case neg =>
    rw [if_pos h1, Except.error.injEq] at he
    exact Or.inl ⟨he.symm, h1⟩
  rw [if_neg (not_not_intro h1)] at he
  cases hd : ap.date with
  | none =>
    rw [hd] at he
    dsimp only at he
    rw [Except.error.injEq] at he
    exact Or.inr (Or.inl ⟨he.symm, h1, rfl⟩)
  | some d0 =>
    rw [hd] at he
    dsimp only at he
    by_cases h2 : ap.status = "Present" ∨ ap.status = "Absent" ∨
        ap.status = "Late" ∨ ap.status = "Excused"
    case neg =>
      rw [if_pos h2, Except.error.injEq] at he
      exact Or.inr (Or.inr ⟨he.symm, h1, ⟨d0, rfl⟩, h2⟩)
    rw [if_neg (not_not_intro h2)] at he
    simp at he

/-- C8: each Joi schema accepts exactly the payloads satisfying its field
constraints (class: name length 1 to 50 and integral grade in 1 to 12;
student: name length 2 to 100, uuid class id, gender Male or Female, parsed
date of birth not after now; attendance: uuid student id, well-formed date,
status among the four), and a rejected payload is reported with the first
offending field in schema order. -/
theorem validation_spec (now : Int) (cp : ClassPayload) (sp : StudentPayload)
    (ap : AttendancePayload) :
    (validateClass cp = .ok cp ↔
      (1 ≤ cp.class_name.length ∧ cp.class_name.length ≤ 50 ∧
        cp.grade.den = 1 ∧ 1 ≤ cp.grade ∧ cp.grade ≤ 12))
    ∧ (∀ e, validateClass cp = .error e →
        (e = "class_name" ∧ ¬(1 ≤ cp.class_name.length ∧ cp.class_name.length ≤ 50))
        ∨ (e = "grade" ∧ (1 ≤ cp.class_name.length ∧ cp.class_name.length ≤ 50)
            ∧ ¬(cp.grade.den = 1 ∧ 1 ≤ cp.grade ∧ cp.grade ≤ 12)))
    ∧ (validateStudent now sp = .ok sp ↔
        (2 ≤ sp.name.length ∧ sp.name.length ≤ 100 ∧ isUuid sp.class_id = true ∧
          (sp.gender = "Male" ∨ sp.gender = "Female") ∧
          ∃ dob, sp.date_of_birth = some dob ∧ dob ≤ now))
    ∧ (∀ e, validateStudent now sp = .error e →
        (e = "name" ∧ ¬(2 ≤ sp.name.length ∧ sp.name.length ≤ 100))
        ∨ (e = "class_id" ∧ (2 ≤ sp.name.length ∧ sp.name.length ≤ 100)
            ∧ ¬(isUuid sp.class_id = true))
        ∨ (e = "gender" ∧ (2 ≤ sp.name.length ∧ sp.name.length ≤ 100)
            ∧ isUuid sp.class_id = true
            ∧ ¬(sp.gender = "Male" ∨ sp.gender = "Female"))
        ∨ (e = "date_of_birth" ∧ (2 ≤ sp.name.length ∧ sp.name.length ≤ 100)
            ∧ isUuid sp.class_id = true
            ∧ (sp.gender = "Male" ∨ sp.gender = "Female")
            ∧ ¬∃ dob, sp.date_of_birth = some dob ∧ dob ≤ now))
    ∧ (validateAttendance ap = .ok ap ↔
        (isUuid ap.student_id = true ∧ (∃ d0, ap.date = some d0) ∧
          (ap.status = "Present" ∨ ap.status = "Absent" ∨ ap.status = "Late" ∨
            ap.status = "Excused")))
    ∧ (∀ e, validateAttendance ap = .error e →
        (e = "student_id" ∧ ¬(isUuid ap.student_id = true))
        ∨ (e = "date" ∧ isUuid ap.student_id = true ∧ ap.date = none)
        ∨ (e = "status" ∧ isUuid ap.student_id = true ∧ (∃ d0, ap.date = some d0) ∧
            ¬(ap.status = "Present" ∨ ap.status = "Absent" ∨ ap.status = "Late" ∨
              ap.status = "Excused"))) :=
  ⟨validateClass_ok_iff cp, validateClass_error_spec cp,
    validateStudent_ok_iff now sp, validateStudent_error_spec now sp,
    validateAttendance_ok_iff ap, validateAttendance_error_spec ap⟩

/-- Witness for C8: a concrete valid class payload is accepted. -/
theorem validation_spec_witness :
    validateClass ⟨"Kelas A", 7⟩ = .ok ⟨"Kelas A", 7⟩ :=
  (validation_spec 0 ⟨"Kelas A", 7⟩ ⟨"Bu", "x", "Male", some 0⟩
    ⟨"x", some 0, "Present"⟩).1.mpr (by decide)

end Absensi
